import Mathlib

/-!
Shallow embedding of the decision-tree troubleshooter
(src/troubleshooter.py and src/api.py).

Conventions of the embedding:
* Python strings are Lean strings; the scanners work on lists of characters.
* Python dicts (insertion ordered, an assignment to an existing key updates
  it in place) are association lists of string pairs, with dictInsert
  modelling the assignment d[k] = v.
* Python functions that can raise become Except String.
* The regular expressions of the source are translated into explicit
  character scanners; the class \w is modelled for ASCII as alphanumeric or
  underscore, and \s as Char.isWhitespace.
* Recursions whose measure is not structural carry an explicit fuel
  argument; the top-level entry points pass the input length, which is
  always sufficient (see substFuel_irrel below).
-/

deriving instance DecidableEq for Except

/-- ASCII model of the regex class `\w`: letters, digits, underscore. -/
def isWordChar (c : Char) : Bool :=
  c.isAlphanum || c = '_'

/-- Python dict lookup (`d.get(k)` together with the test `k in d`) on an
association list. -/
def lookupVar (k : String) : List (String × String) → Option String
  | [] => none
  | (k', v) :: rest => if k' = k then some v else lookupVar k rest

/-- Python dict assignment `d[k] = v`: update the existing entry in place,
otherwise append at the end. -/
def dictInsert (k v : String) : List (String × String) → List (String × String)
  | [] => [(k, v)]
  | (k', v') :: rest =>
    if k' = k then (k, v) :: rest else (k', v') :: dictInsert k v rest

/-- Maximal `\w*` run at the head of the input, with the remainder. -/
def splitWord : List Char → List Char × List Char
  | [] => ([], [])
  | c :: cs =>
    if isWordChar c then (c :: (splitWord cs).1, (splitWord cs).2)
    else ([], c :: cs)

/-- One optional colon (the regex `:?`), greedily consumed when present. -/
def dropColon : List Char → List Char
  | [] => []
  | c :: r => if c = ':' then r else c :: r

/-- Lazy scan `(?P<default>.*?)\}` of the placeholder regex: the text up to
the first closing brace, failing when the end of the input or a newline
(which `.` does not match) comes first. -/
def takeUntilBrace : List Char → Option (List Char × List Char)
  | [] => none
  | c :: cs =>
    if c = '}' then some ([], cs)
    else if c = '\n' then none
    else
      match takeUntilBrace cs with
      | some p => some (c :: p.1, p.2)
      | none => none

/-- Attempt of the placeholder regex body after a literal `${`, namely
`(?P<name>\w*):?(?P<default>.*?)\}`: the name capture, the default capture
and the input after the match.  Backtracking cannot produce a match when
this direct attempt fails, because neither the word run nor the optional
colon can contain the closing brace or a newline. -/
def tryMatch (l : List Char) : Option (List Char × List Char × List Char) :=
  match takeUntilBrace (dropColon (splitWord l).2) with
  | some q => some ((splitWord l).1, q.1, q.2)
  | none => none

/-- Body of `evaluate_match` inside `perform_subsitutions`: the value of the
named variable when present, the default capture otherwise. -/
def evaluateMatch (vars : List (String × String)) (name dflt : List Char) :
    List Char :=
  match lookupVar (String.mk name) vars with
  | some v => v.toList
  | none => dflt

/-- The `re.sub` scan: at each position try the placeholder pattern (which
can only start with the two characters dollar and open brace), emit the
replacement and continue after the match, otherwise keep one character and
advance.  The fuel only bounds the recursion; the input length is always
enough, and the result does not depend on the fuel beyond it. -/
def substFuel (vars : List (String × String)) : Nat → List Char → List Char
  | 0, l => l
  | _ + 1, [] => []
  | fuel + 1, c :: cs =>
    if c = '$' ∧ cs.head? = some '{' then
      match tryMatch cs.tail with
      | some md => evaluateMatch vars md.1 md.2.1 ++ substFuel vars fuel md.2.2
      | none => c :: substFuel vars fuel cs
    else c :: substFuel vars fuel cs

def subst (vars : List (String × String)) (l : List Char) : List Char :=
  substFuel vars l.length l

/-- Model of `perform_subsitutions(text, vars)` from
src/troubleshooter.py. -/
def perform_subsitutions (text : String) (vars : List (String × String)) :
    String :=
  String.mk (subst vars text.toList)

/-- Whether the text contains the two-character substring that can start a
placeholder match (a dollar immediately followed by an open brace). -/
def hasDollarBrace : List Char → Bool
  | [] => false
  | c :: cs => if c = '$' ∧ cs.head? = some '{' then true else hasDollarBrace cs

/-- Python `str.strip()`, restricted to the whitespace characters of
`Char.isWhitespace`. -/
def pyStrip (l : List Char) : List Char :=
  ((l.dropWhile Char.isWhitespace).reverse.dropWhile Char.isWhitespace).reverse

/-- Model of `re.split(r"\s+", s, maxsplit=1)` for an input without leading
whitespace (the parser only applies it to stripped text): the token before
the first whitespace run and, when such a run exists, everything after it. -/
def splitFirstWs : List Char → List Char × Option (List Char)
  | [] => ([], none)
  | c :: cs =>
    if c.isWhitespace then ([], some (cs.dropWhile Char.isWhitespace))
    else (c :: (splitFirstWs cs).1, (splitFirstWs cs).2)

/-- Attempt of `\((?P<variable>[^()]+)\)` at a position just after an
opening parenthesis: a non-empty run free of parentheses, then a closing
parenthesis. -/
def grabGroup (l : List Char) : Option (List Char × List Char) :=
  let run := l.takeWhile (fun c => c != '(' && c != ')')
  match l.dropWhile (fun c => c != '(' && c != ')') with
  | ')' :: r => if run = [] then none else some (run, r)
  | _ => none

/-- The `re.finditer` scan for parenthesized groups; on a failed attempt
the scan advances one character.  Fuel as in `substFuel`. -/
def findGroupsFuel : Nat → List Char → List (List Char)
  | 0, _ => []
  | _ + 1, [] => []
  | fuel + 1, c :: cs =>
    if c = '(' then
      match grabGroup cs with
      | some g => g.1 :: findGroupsFuel fuel g.2
      | none => findGroupsFuel fuel cs
    else findGroupsFuel fuel cs

def findGroups (l : List Char) : List (List Char) :=
  findGroupsFuel l.length l

/-- Python `text.split(":")`: split on every colon. -/
def splitColons : List Char → List (List Char)
  | [] => [[]]
  | c :: cs =>
    if c = ':' then [] :: splitColons cs
    else
      match splitColons cs with
      | [] => [[c]]
      | h :: t => (c :: h) :: t

def countColons (l : List Char) : Nat :=
  l.countP (fun c => c == ':')

/-- Python `name, value = text.split(":")` followed by the assignment
`vars[name] = value`: tuple unpacking succeeds only when the split has
exactly two parts, and raises a ValueError otherwise. -/
def parse_group (acc : List (String × String)) (g : List Char) :
    Except String (List (String × String)) :=
  match splitColons g with
  | [n, v] => Except.ok (dictInsert (String.mk n) (String.mk v) acc)
  | parts =>
    Except.error
      (if parts.length < 2 then "not enough values to unpack (expected 2, got 1)"
       else "too many values to unpack (expected 2)")

def parse_groups : List (List Char) → List (String × String) →
    Except String (List (String × String))
  | [], acc => Except.ok acc
  | g :: gs, acc =>
    match parse_group acc g with
    | Except.error e => Except.error e
    | Except.ok acc' => parse_groups gs acc'

/-- Model of `parse_node_invocation(invocation)` from
src/troubleshooter.py. -/
def parse_node_invocation (invocation : String) :
    Except String (String × List (String × String)) :=
  match (splitFirstWs (pyStrip invocation.toList)).2 with
  | none => Except.ok (String.mk (splitFirstWs (pyStrip invocation.toList)).1, [])
  | some rest =>
    match parse_groups (findGroups rest) [] with
    | Except.error e => Except.error e
    | Except.ok vars =>
      Except.ok (String.mk (splitFirstWs (pyStrip invocation.toList)).1, vars)

/-- The parenthesized groups the parser extracts from an invocation (none
when the stripped input has no remainder after the node id token). -/
def invocation_groups (invocation : String) : List (List Char) :=
  match (splitFirstWs (pyStrip invocation.toList)).2 with
  | none => []
  | some rest => findGroups rest

structure Node where
  node_id : String
  text : String
  root : Bool
  choice_to_node_invocation : List (String × String)
deriving DecidableEq

/-- Model of `re.match(r"if_(?P<choice>\w+)", name, re.I)`: case-insensitive
literal `if_` followed by at least one word character; the choice capture is
the maximal word run, trailing characters being ignored by `re.match`. -/
def matchIfField (name : List Char) : Option String :=
  match name with
  | c1 :: c2 :: c3 :: rest =>
    if c1.toLower = 'i' ∧ c2.toLower = 'f' ∧ c3 = '_' then
      let run := rest.takeWhile isWordChar
      if run = [] then none else some (String.mk run)
    else none
  | _ => none

/-- One iteration of the kwargs loop of `Node.__init__`, including the
guard that raises on an empty choice capture. -/
def addKwarg (acc : List (String × String)) (kv : String × String) :
    Except String (List (String × String)) :=
  match matchIfField kv.1.toList with
  | none => Except.ok acc
  | some choice =>
    if choice = "" then
      Except.error "A choice text cannot be empty, if_<x> must have a non-empty x"
    else Except.ok (dictInsert choice kv.2 acc)

def nodeKwargs : List (String × String) → List (String × String) →
    Except String (List (String × String))
  | [], acc => Except.ok acc
  | kv :: rest, acc =>
    match addKwarg acc kv with
    | Except.error e => Except.error e
    | Except.ok acc' => nodeKwargs rest acc'

/-- Model of `Node.__init__(node_id, text, root, **kwargs)` (the
configuration-file loading that produces the keyword arguments is an
external collaborator and out of scope per the spec). -/
def node_init (node_id text : String) (root : Option Bool)
    (kwargs : List (String × String)) : Except String Node :=
  match nodeKwargs kwargs [] with
  | Except.error e => Except.error e
  | Except.ok choices =>
    Except.ok ⟨node_id, text, (match root with | none => false | some b => b), choices⟩

structure Scenario where
  node_id_to_node : List (String × Node)
deriving DecidableEq

def lookupNode : List (String × Node) → String → Option Node
  | [], _ => none
  | (k, n) :: rest, node_id => if k = node_id then some n else lookupNode rest node_id

/-- Model of `re.match(r"\w+", node_id, re.I)` used as a truth test: it
succeeds exactly when the string starts with a word character, placing no
constraint on the rest of the string. -/
def matchWplus : List Char → Bool
  | [] => false
  | c :: _ => isWordChar c

/-- Model of `Scenario.get_node`: a ValueError when the id fails the
`re.match` test, otherwise the (possibly absent) node. -/
def get_node (s : Scenario) (node_id : String) : Except String (Option Node) :=
  if matchWplus node_id.toList then Except.ok (lookupNode s.node_id_to_node node_id)
  else Except.error ("Invalid node id " ++ node_id)

def findRoot : List (String × Node) → Option String
  | [] => none
  | (i, n) :: rest => if n.root then some i else findRoot rest

/-- Model of `Scenario.get_root_node_id`: the first node in declaration
order whose root flag is set, absent otherwise. -/
def get_root_node_id (s : Scenario) : Option String :=
  findRoot s.node_id_to_node

/-- Start of `Troubleshooter.get_help`: the root lookup and the guard
`if not node_id: raise`, whose test is true for both an absent id and an
empty one (both are falsy in Python). -/
def get_help_start (s : Scenario) : Except String String :=
  match get_root_node_id s with
  | none => Except.error "No root node in scenario"
  | some i => if i = "" then Except.error "No root node in scenario" else Except.ok i

/-- Choice resolution shared by `Node.run` (troubleshooter.py) and the API
handler (api.py): substitute the invocation template, then parse the
resulting invocation. -/
def resolve_choice (node_invocation : String)
    (vars : List (String × String)) :
    Except String (String × List (String × String)) :=
  parse_node_invocation (perform_subsitutions node_invocation vars)

def sampleNode : Node :=
  ⟨"start", "hello", true, []⟩

def sampleScenario : Scenario :=
  ⟨[("start", sampleNode)]⟩

def sampleNoRootScenario : Scenario :=
  ⟨[("start", ⟨"start", "hello", false, []⟩)]⟩

/-! Helper lemmas about the substitution scanner. -/

theorem splitWord_append (l : List Char) : (splitWord l).1 ++ (splitWord l).2 = l := by
  induction l with
  | nil => rfl
  | cons c cs ih =>
    simp only [splitWord]
    split
    · simpa using ih
    · rfl

theorem splitWord_snd_length_le (l : List Char) : (splitWord l).2.length ≤ l.length := by
  conv_rhs => rw [← splitWord_append l]
  simp

theorem splitWord_eq (a b : List Char) (ha : ∀ c ∈ a, isWordChar c = true)
    (hb : ∀ c cs, b = c :: cs → isWordChar c = false) :
    splitWord (a ++ b) = (a, b) := by
  induction a with
  | nil =>
    cases b with
    | nil => rfl
    | cons c cs =>
      simp only [List.nil_append, splitWord, hb c cs rfl]
      simp
  | cons c a' ih =>
    have hc : isWordChar c = true := ha c (by simp)
    have ih' := ih (fun x hx => ha x (by simp [hx]))
    simp only [List.cons_append, splitWord, hc, if_true, List.append_eq]
    rw [ih']

theorem dropColon_length_le (l : List Char) : (dropColon l).length ≤ l.length := by
  cases l with
  | nil => simp [dropColon]
  | cons c r =>
    simp only [dropColon]
    split <;> simp

theorem dropColon_subset (l : List Char) : ∀ c ∈ dropColon l, c ∈ l := by
  cases l with
  | nil => simp [dropColon]
  | cons c r =>
    simp only [dropColon]
    split
    · intro x hx; exact List.mem_cons_of_mem _ hx
    · intro x hx; exact hx

theorem dropColon_append_brace (junk r : List Char) :
    dropColon (junk ++ '}' :: r) = dropColon junk ++ '}' :: r := by
  cases junk with
  | nil => simp [dropColon]
  | cons c j =>
    simp only [List.cons_append, dropColon]
    split <;> simp

theorem takeUntilBrace_sound (l : List Char) (p : List Char × List Char)
    (h : takeUntilBrace l = some p) : l = p.1 ++ '}' :: p.2 := by
  induction l generalizing p with
  | nil => simp [takeUntilBrace] at h
  | cons c cs ih =>
    simp only [takeUntilBrace] at h
    by_cases hc : c = '}'
    · rw [if_pos hc] at h
      cases h
      simpa using hc
    · rw [if_neg hc] at h
      by_cases hn : c = '\n'
      · rw [if_pos hn] at h; cases h
      · rw [if_neg hn] at h
        cases hm : takeUntilBrace cs with
        | none => rw [hm] at h; cases h
        | some q =>
          rw [hm] at h
          cases h
          have := ih q hm
          simp [this]

theorem takeUntilBrace_append (d r : List Char)
    (h : ∀ c ∈ d, ¬ c = '}' ∧ ¬ c = '\n') :
    takeUntilBrace (d ++ '}' :: r) = some (d, r) := by
  induction d with
  | nil => simp [takeUntilBrace]
  | cons c d' ih =>
    have hc := h c (by simp)
    have ih' := ih (fun x hx => h x (by simp [hx]))
    simp only [List.cons_append, takeUntilBrace, if_neg hc.1, if_neg hc.2,
      List.append_eq]
    rw [ih']

theorem tryMatch_shrink (l : List Char) (md : List Char × List Char × List Char)
    (h : tryMatch l = some md) : md.2.2.length < l.length := by
  unfold tryMatch at h
  cases hm : takeUntilBrace (dropColon (splitWord l).2) with
  | none => rw [hm] at h; cases h
  | some q =>
    rw [hm] at h
    cases h
    have hs := takeUntilBrace_sound _ _ hm
    have h1 : q.2.length < (dropColon (splitWord l).2).length := by
      rw [hs]; simp; omega
    have h2 := dropColon_length_le (splitWord l).2
    have h3 := splitWord_snd_length_le l
    simpa using lt_of_lt_of_le h1 (le_trans h2 h3)

theorem tryMatch_eq (name junk rest : List Char)
    (hname : ∀ c ∈ name, isWordChar c = true)
    (hhead : ∀ c cs, junk = c :: cs → isWordChar c = false)
    (hmem : ∀ c ∈ junk, ¬ c = '}' ∧ ¬ c = '\n') :
    tryMatch (name ++ (junk ++ '}' :: rest)) = some (name, dropColon junk, rest) := by
  have hb : ∀ c cs, junk ++ '}' :: rest = c :: cs → isWordChar c = false := by
    intro c cs hc
    cases junk with
    | nil =>
      simp only [List.nil_append] at hc
      cases hc
      decide
    | cons j js =>
      simp only [List.cons_append, List.cons.injEq] at hc
      rw [← hc.1]
      exact hhead j js rfl
  have hsw := splitWord_eq name (junk ++ '}' :: rest) hname hb
  have hmem' : ∀ c ∈ dropColon junk, ¬ c = '}' ∧ ¬ c = '\n' :=
    fun c hc => hmem c (dropColon_subset junk c hc)
  unfold tryMatch
  rw [hsw]
  simp only [dropColon_append_brace, takeUntilBrace_append _ _ hmem']

theorem substFuel_irrel (vars : List (String × String)) :
    ∀ f₁ f₂ l, l.length ≤ f₁ → l.length ≤ f₂ →
      substFuel vars f₁ l = substFuel vars f₂ l := by
  intro f₁
  induction f₁ with
  | zero =>
    intro f₂ l h1 _
    have : l = [] := List.length_eq_zero.mp (Nat.le_zero.mp h1)
    subst this
    cases f₂ <;> rfl
  | succ f ih =>
    intro f₂ l h1 h2
    cases l with
    | nil => cases f₂ <;> rfl
    | cons c cs =>
      cases f₂ with
      | zero => simp at h2
      | succ g =>
        simp only [List.length_cons, Nat.succ_le_succ_iff] at h1 h2
        simp only [substFuel]
        by_cases hc : c = '$' ∧ cs.head? = some '{'
        · rw [if_pos hc, if_pos hc]
          cases hm : tryMatch cs.tail with
          | none => simp only [ih g cs h1 h2]
          | some md =>
            have hlt : md.2.2.length < cs.tail.length := tryMatch_shrink _ _ hm
            have hle : cs.tail.length ≤ cs.length := by
              cases cs <;> simp
            simp only [ih g md.2.2 (by omega) (by omega)]
        · rw [if_neg hc, if_neg hc, ih g cs h1 h2]

theorem substFuel_id (vars : List (String × String)) :
    ∀ f l, hasDollarBrace l = false → substFuel vars f l = l := by
  intro f
  induction f with
  | zero => intro l _; rfl
  | succ f ih =>
    intro l h
    cases l with
    | nil => rfl
    | cons c cs =>
      simp only [hasDollarBrace] at h
      by_cases hc : c = '$' ∧ cs.head? = some '{'
      · rw [if_pos hc] at h; cases h
      · rw [if_neg hc] at h
        simp only [substFuel, if_neg hc]
        rw [ih cs h]

theorem string_mk_toList (s : String) : String.mk s.toList = s := rfl

theorem subst_step (vars : List (String × String)) (name junk rest : List Char)
    (hname : ∀ c ∈ name, isWordChar c = true)
    (hhead : ∀ c cs, junk = c :: cs → isWordChar c = false)
    (hmem : ∀ c ∈ junk, ¬ c = '}' ∧ ¬ c = '\n') :
    subst vars ('$' :: '{' :: (name ++ (junk ++ '}' :: rest))) =
      evaluateMatch vars name (dropColon junk) ++ subst vars rest := by
  have htm := tryMatch_eq name junk rest hname hhead hmem
  unfold subst
  have hlen : rest.length ≤ (name ++ (junk ++ '}' :: rest)).length + 1 := by
    simp
    omega
  simp only [List.length_cons, substFuel, List.head?_cons, List.tail_cons,
    if_pos (And.intro rfl rfl), htm]
  rw [substFuel_irrel vars ((name ++ (junk ++ '}' :: rest)).length + 1)
    rest.length rest hlen (le_refl _)]
  simp

/-! Helper lemmas about the invocation parser. -/

theorem splitColons_length (l : List Char) :
    (splitColons l).length = countColons l + 1 := by
  induction l with
  | nil => rfl
  | cons c cs ih =>
    simp only [splitColons, countColons] at *
    by_cases hc : c = ':'
    · subst hc
      simp [ih]
    · rw [if_neg hc]
      cases hm : splitColons cs with
      | nil => rw [hm] at ih; simp at ih
      | cons h t =>
        rw [hm] at ih
        simp only [List.length_cons] at ih ⊢
        simp [List.countP_cons, hc]
        omega

theorem splitColons_no_colon (l : List Char) (h : ∀ c ∈ l, ¬ c = ':') :
    splitColons l = [l] := by
  induction l with
  | nil => rfl
  | cons c cs ih =>
    have hc : ¬ c = ':' := h c (by simp)
    simp only [splitColons, if_neg hc]
    rw [ih (fun x hx => h x (by simp [hx]))]

theorem splitColons_key (k v : List Char) (h : ∀ c ∈ k, ¬ c = ':') :
    splitColons (k ++ ':' :: v) = k :: splitColons v := by
  induction k with
  | nil => simp [splitColons]
  | cons c k' ih =>
    have hc : ¬ c = ':' := h c (by simp)
    simp only [List.cons_append, splitColons, if_neg hc, List.append_eq]
    rw [ih (fun x hx => h x (by simp [hx]))]

theorem parse_group_bad (acc : List (String × String)) (g : List Char)
    (h : countColons g ≠ 1) : ∃ e, parse_group acc g = Except.error e := by
  have hl := splitColons_length g
  unfold parse_group
  cases hm : splitColons g with
  | nil => exact ⟨_, rfl⟩
  | cons a t =>
    cases t with
    | nil => exact ⟨_, rfl⟩
    | cons b t2 =>
      cases t2 with
      | nil =>
        rw [hm] at hl
        simp at hl
        omega
      | cons d t3 => exact ⟨_, rfl⟩

theorem parse_groups_bad :
    ∀ (gs : List (List Char)) (acc : List (String × String)),
      (∃ g ∈ gs, countColons g ≠ 1) →
      ∃ e, parse_groups gs acc = Except.error e := by
  intro gs
  induction gs with
  | nil => intro acc h; simp at h
  | cons g0 rest ih =>
    intro acc h
    obtain ⟨g, hg, hbad⟩ := h
    rcases List.mem_cons.mp hg with hg0 | hgrest
    · subst hg0
      obtain ⟨e, he⟩ := parse_group_bad acc g hbad
      exact ⟨e, by simp [parse_groups, he]⟩
    · cases hp : parse_group acc g0 with
      | error e => exact ⟨e, by simp [parse_groups, hp]⟩
      | ok acc' =>
        obtain ⟨e, he⟩ := ih acc' ⟨g, hgrest, hbad⟩
        exact ⟨e, by simp [parse_groups, hp, he]⟩

theorem parse_bad_group_error (inv : String)
    (h : ∃ g ∈ invocation_groups inv, countColons g ≠ 1) :
    ∃ e, parse_node_invocation inv = Except.error e := by
  unfold invocation_groups at h
  unfold parse_node_invocation
  cases hs : (splitFirstWs (pyStrip inv.toList)).2 with
  | none => rw [hs] at h; simp at h
  | some rest =>
    rw [hs] at h
    obtain ⟨e, he⟩ := parse_groups_bad (findGroups rest) [] h
    exact ⟨e, by simp [he]⟩

theorem lookupVar_dictInsert (k v : String) :
    ∀ d : List (String × String), lookupVar k (dictInsert k v d) = some v := by
  intro d
  induction d with
  | nil => simp [dictInsert, lookupVar]
  | cons p rest ih =>
    obtain ⟨k', v'⟩ := p
    by_cases hk : k' = k
    · simp [dictInsert, hk, lookupVar]
    · simp only [dictInsert, if_neg hk, lookupVar, ih]

theorem lookupVar_dictInsert_ne (k k' v : String) (h : ¬ k' = k) :
    ∀ d : List (String × String),
      lookupVar k (dictInsert k' v d) = lookupVar k d := by
  intro d
  induction d with
  | nil => simp [dictInsert, lookupVar, h]
  | cons p rest ih =>
    obtain ⟨k2, v2⟩ := p
    by_cases h2 : k2 = k'
    · subst h2
      simp [dictInsert, lookupVar, h]
    · simp [dictInsert, h2, lookupVar, ih]

theorem parse_group_ok (acc acc' : List (String × String)) (g : List Char)
    (h : parse_group acc g = Except.ok acc') :
    ∃ n w, splitColons g = [n, w] ∧
      acc' = dictInsert (String.mk n) (String.mk w) acc := by
  unfold parse_group at h
  cases hm : splitColons g with
  | nil => rw [hm] at h; simp at h
  | cons a t =>
    cases t with
    | nil => rw [hm] at h; simp at h
    | cons b t2 =>
      cases t2 with
      | nil =>
        rw [hm] at h
        simp only [Except.ok.injEq] at h
        exact ⟨a, b, rfl, h.symm⟩
      | cons d t3 => rw [hm] at h; simp at h

theorem parse_groups_preserve :
    ∀ (gs : List (List Char)) (acc res : List (String × String)) (k v : String),
      lookupVar k acc = some v →
      (∀ g ∈ gs, ∀ n w, splitColons g = [n, w] → ¬ String.mk n = k) →
      parse_groups gs acc = Except.ok res →
      lookupVar k res = some v := by
  intro gs
  induction gs with
  | nil =>
    intro acc res k v hacc _ hp
    simp only [parse_groups, Except.ok.injEq] at hp
    rw [← hp]
    exact hacc
  | cons g gs' ih =>
    intro acc res k v hacc hkeys hp
    simp only [parse_groups] at hp
    cases hpg : parse_group acc g with
    | error e => rw [hpg] at hp; simp at hp
    | ok acc' =>
      rw [hpg] at hp
      obtain ⟨n, w, hsp, hins⟩ := parse_group_ok acc acc' g hpg
      have hne : ¬ String.mk n = k := hkeys g (by simp) n w hsp
      have hmid : lookupVar k acc' = some v := by
        rw [hins, lookupVar_dictInsert_ne k (String.mk n) (String.mk w) hne acc]
        exact hacc
      exact ih acc' res k v hmid
        (fun g2 hg2 n2 w2 hs2 => hkeys g2 (by simp [hg2]) n2 w2 hs2) hp

theorem parse_groups_split (b : List (List Char)) :
    ∀ (a : List (List Char)) (acc res : List (String × String)),
      parse_groups (a ++ b) acc = Except.ok res →
      ∃ mid, parse_groups a acc = Except.ok mid ∧
        parse_groups b mid = Except.ok res := by
  intro a
  induction a with
  | nil =>
    intro acc res h
    exact ⟨acc, rfl, by simpa using h⟩
  | cons g a' ih =>
    intro acc res h
    simp only [List.cons_append, parse_groups] at h ⊢
    cases hpg : parse_group acc g with
    | error e => rw [hpg] at h; simp at h
    | ok acc' =>
      rw [hpg] at h
      exact ih acc' res h

theorem findRoot_none (nodes : List (String × Node))
    (h : ∀ p ∈ nodes, p.2.root = false) : findRoot nodes = none := by
  induction nodes with
  | nil => rfl
  | cons p rest ih =>
    obtain ⟨i, n⟩ := p
    have hn : n.root = false := h (i, n) (by simp)
    simp only [findRoot, hn, Bool.false_eq_true, if_false]
    exact ih (fun q hq => h q (by simp [hq]))

theorem pyStrip_nil (l : List Char) (h : ∀ c ∈ l, c.isWhitespace = true) :
    pyStrip l = [] := by
  unfold pyStrip
  have h1 : l.dropWhile Char.isWhitespace = [] :=
    List.dropWhile_eq_nil_iff.mpr h
  rw [h1]
  rfl

/-! Claim theorems. -/

/-- C1, counterexample: the spec says `get_node(scenario, "bad id!")` must
signal InvalidIdentifier, but `re.match(r"\w+", ...)` only anchors at the
start of the string, so "bad id!" (leading word character) passes the
validation and the call returns the not-found result instead of raising. -/
theorem get_node_malformed_id_not_rejected :
    get_node sampleScenario "bad id!" = Except.ok none := by decide

/-- C1, amended: `get_node` signals the InvalidIdentifier error exactly for
ids that are empty or do not start with a word character; an id that starts
with a word character (such as "bad id!") passes validation and, when no
node carries it, yields the absent result, which remains distinguishable
from the error. -/
theorem get_node_validation_boundary (s : Scenario) (bad good : String)
    (hbad : matchWplus bad.toList = false)
    (hgood : matchWplus good.toList = true)
    (habsent : lookupNode s.node_id_to_node good = none) :
    get_node s bad = Except.error ("Invalid node id " ++ bad) ∧
    get_node s good = Except.ok none := by
  refine ⟨?_, ?_⟩
  · unfold get_node
    rw [hbad]
    rfl
  · unfold get_node
    rw [hgood, habsent]
    rfl

/-- C1, witness for the amended theorem at "!bad" and "ghost". -/
theorem get_node_validation_boundary_witness :
    get_node sampleScenario "!bad" = Except.error ("Invalid node id " ++ "!bad") ∧
    get_node sampleScenario "ghost" = Except.ok none :=
  get_node_validation_boundary sampleScenario "!bad" "ghost"
    (by decide) (by decide) (by decide)

/-- C2, counterexample: the spec says the group value is everything after
the first colon, so "go (k:a:b)" should yield value "a:b"; the code instead
splits on every colon and the two-element unpacking raises a ValueError. -/
theorem parse_invocation_colon_value_rejected :
    parse_node_invocation "go (k:a:b)" =
      Except.error "too many values to unpack (expected 2)" := by decide

/-- C2, amended: a parenthesized group whose content has two or more colons
(that is, a value containing a colon) makes `parse_node_invocation` fail
instead of preserving the value verbatim. -/
theorem parse_multi_colon_group_fails (inv : String)
    (h : ∃ g ∈ invocation_groups inv, 2 ≤ countColons g) :
    ∃ e, parse_node_invocation inv = Except.error e := by
  obtain ⟨g, hg, h2⟩ := h
  exact parse_bad_group_error inv ⟨g, hg, by omega⟩

/-- C2, witness for the amended theorem at "go (k:a:b)". -/
theorem parse_multi_colon_group_fails_witness :
    ∃ e, parse_node_invocation "go (k:a:b)" = Except.error e :=
  parse_multi_colon_group_fails "go (k:a:b)" (by decide)

/-- C3: the claim (and the error message of the unreachable ValueError in
`Node.__init__`) says a field named exactly "if_" must abort construction
with MalformedChoice; the regex `if_(?P<choice>\w+)` requires at least one
word character after the underscore, so the field fails to match and is
silently skipped, and construction succeeds with an empty choice table. -/
theorem node_init_ignores_empty_choice_label :
    node_init "n" "t" none [("if_", "target")] =
      Except.ok ⟨"n", "t", false, []⟩ := by decide

/-- C4, counterexample: the regex `\$\{(?P<name>\w*):?(?P<default>.*?)\}`
matches "$\x7bab cd\x7d" with default capture " cd" although no colon
default clause was written, so the replacement for the absent name "ab" is
" cd" and not the empty string required by the claim. -/
theorem subst_bare_name_junk_not_empty :
    perform_subsitutions "$\x7bab cd\x7d" [] = " cd" ∧ (" cd" : String) ≠ "" := by
  constructor <;> decide

/-- C4, amended: for a placeholder match `${name · junk · }` (name a word
run, junk brace- and newline-free and not starting with a word character)
the whole match is replaced by the value of `name` when it is a key of the
mapping, verbatim and with no recursive re-substitution (scanning resumes
after the match), and otherwise by the default capture verbatim: the text
between the name (skipping one colon immediately after it, if present) and
the first closing brace.  That capture is the default text of
`${name:default}` and is empty exactly when the brace directly follows the
name, but for an out-of-grammar match such as `${ab cd}` it is the
non-empty junk text. -/
theorem subst_placeholder_characterization (vars : List (String × String))
    (name junk rest : List Char)
    (hname : ∀ c ∈ name, isWordChar c = true)
    (hhead : ∀ c cs, junk = c :: cs → isWordChar c = false)
    (hmem : ∀ c ∈ junk, ¬ c = '}' ∧ ¬ c = '\n') :
    perform_subsitutions (String.mk ('$' :: '{' :: (name ++ (junk ++ '}' :: rest)))) vars =
      String.mk (evaluateMatch vars name (dropColon junk) ++ subst vars rest) := by
  unfold perform_subsitutions
  show String.mk (subst vars ('$' :: '{' :: (name ++ (junk ++ '}' :: rest)))) = _
  rw [subst_step vars name junk rest hname hhead hmem]

/-- C4, witness for the amended theorem at the match of "$\x7bab cd\x7d"
with an empty variable mapping. -/
theorem subst_placeholder_characterization_witness :
    perform_subsitutions
        (String.mk ('$' :: '{' :: (['a', 'b'] ++ ([' ', 'c', 'd'] ++ '}' :: [])))) [] =
      String.mk (evaluateMatch [] ['a', 'b'] (dropColon [' ', 'c', 'd']) ++ subst [] []) :=
  subst_placeholder_characterization [] ['a', 'b'] [' ', 'c', 'd'] []
    (by decide) (by intro c cs hc; cases hc; decide) (by decide)

/-- C5: round trip through one choice resolution, as in `Node.run` and the
API handler: substituting the template "next_node (k:$\x7bv\x7d)" under
the mapping v = 5 and parsing the result yields the node id "next_node"
with the variable mapping k = 5. -/
theorem resolve_choice_round_trip :
    resolve_choice "next_node (k:$\x7bv\x7d)" [("v", "5")] =
      Except.ok ("next_node", [("k", "5")]) := by decide

/-- C6: substitution is the identity on any text without the substring
that opens a placeholder (a dollar followed by an open brace), for every
variable mapping; such text is therefore a fixed point of substitution. -/
theorem subst_identity_no_placeholder (text : String)
    (vars : List (String × String))
    (h : hasDollarBrace text.toList = false) :
    perform_subsitutions text vars = text := by
  unfold perform_subsitutions subst
  rw [substFuel_id vars text.toList.length text.toList h]
  exact string_mk_toList text

/-- C6, witness at a placeholder-free text with a lone dollar sign. -/
theorem subst_identity_no_placeholder_witness :
    perform_subsitutions "hello $v and x" [("v", "1")] = "hello $v and x" :=
  subst_identity_no_placeholder "hello $v and x" [("v", "1")] (by decide)

/-- C7: later parenthesized groups with a repeated key override earlier
ones, wherever the repeated group sits in the invocation.  First two
conjuncts: the spec's concrete example, and the same repetition followed
by a further group with a different key.  Third conjunct, the general
property: in any successful parse, the binding written by a group `k:v`
(colon-free key and value) survives all later groups whose keys differ
from `k`, whatever earlier groups bound `k` to — so the last group with a
given key determines that key's value in the result. -/
theorem parse_invocation_last_write_wins :
    parse_node_invocation "switch (power:on) (power:off)" =
      Except.ok ("switch", [("power", "off")]) ∧
    parse_node_invocation "switch (power:on) (power:off) (mode:auto)" =
      Except.ok ("switch", [("power", "off"), ("mode", "auto")]) ∧
    ∀ (gs₁ gs₂ : List (List Char)) (acc res : List (String × String))
      (k v : List Char),
      (∀ c ∈ k, ¬ c = ':') → (∀ c ∈ v, ¬ c = ':') →
      (∀ g ∈ gs₂, ¬ (splitColons g).head? = some k) →
      parse_groups (gs₁ ++ (k ++ ':' :: v) :: gs₂) acc = Except.ok res →
      lookupVar (String.mk k) res = some (String.mk v) := by
  refine ⟨by decide, by decide, ?_⟩
  intro gs₁ gs₂ acc res k v hk hv hlater hres
  obtain ⟨mid, hmid1, hmid2⟩ :=
    parse_groups_split ((k ++ ':' :: v) :: gs₂) gs₁ acc res hres
  have hsp : splitColons (k ++ ':' :: v) = [k, v] := by
    rw [splitColons_key k v hk, splitColons_no_colon v hv]
  have hpg : parse_group mid (k ++ ':' :: v) =
      Except.ok (dictInsert (String.mk k) (String.mk v) mid) := by
    unfold parse_group
    rw [hsp]
  simp only [parse_groups] at hmid2
  rw [hpg] at hmid2
  have hbind : lookupVar (String.mk k)
      (dictInsert (String.mk k) (String.mk v) mid) = some (String.mk v) :=
    lookupVar_dictInsert (String.mk k) (String.mk v) mid
  refine parse_groups_preserve gs₂ _ res (String.mk k) (String.mk v) hbind ?_ hmid2
  intro g hg n w hsw hmk
  have hn : n = k := congrArg String.toList hmk
  exact hlater g hg (by rw [hsw, hn]; rfl)

/-- C7, witness for the general conjunct: the "power" binding written by
the middle group survives the later "mode" group of
"switch (power:on) (power:off) (mode:auto)", leaving "off" in the result. -/
theorem parse_invocation_last_write_wins_witness :
    lookupVar (String.mk ['p', 'o', 'w', 'e', 'r'])
        [("power", "off"), ("mode", "auto")] = some (String.mk ['o', 'f', 'f']) :=
  parse_invocation_last_write_wins.2.2 [['p', 'o', 'w', 'e', 'r', ':', 'o', 'n']]
    [['m', 'o', 'd', 'e', ':', 'a', 'u', 't', 'o']] []
    [("power", "off"), ("mode", "auto")] ['p', 'o', 'w', 'e', 'r'] ['o', 'f', 'f']
    (by decide) (by decide) (by decide) (by decide)

/-- C8: an invocation one of whose extracted parenthesized groups contains
no colon makes `parse_node_invocation` fail (the two-element unpacking of
the split raises), rather than returning a result. -/
theorem parse_group_without_colon_fails (inv : String)
    (h : ∃ g ∈ invocation_groups inv, countColons g = 0) :
    ∃ e, parse_node_invocation inv = Except.error e := by
  obtain ⟨g, hg, h0⟩ := h
  exact parse_bad_group_error inv ⟨g, hg, by omega⟩

/-- C8, witness at "go (broken)". -/
theorem parse_group_without_colon_fails_witness :
    ∃ e, parse_node_invocation "go (broken)" = Except.error e :=
  parse_group_without_colon_fails "go (broken)" (by decide)

/-- C9: in a scenario none of whose nodes carries the root flag, root
discovery yields the absent result and starting a session fails fast with
the NoRootNode error instead of defaulting to an arbitrary node. -/
theorem no_root_node_fails_fast (s : Scenario)
    (h : ∀ p ∈ s.node_id_to_node, p.2.root = false) :
    get_root_node_id s = none ∧
    get_help_start s = Except.error "No root node in scenario" := by
  have hr : get_root_node_id s = none := findRoot_none s.node_id_to_node h
  refine ⟨hr, ?_⟩
  unfold get_help_start
  rw [hr]

/-- C9, witness at a one-node scenario whose node is not a root. -/
theorem no_root_node_fails_fast_witness :
    get_root_node_id sampleNoRootScenario = none ∧
    get_help_start sampleNoRootScenario = Except.error "No root node in scenario" :=
  no_root_node_fails_fast sampleNoRootScenario (by decide)

/-- C10: an input that is empty or all whitespace strips to nothing, the
maxsplit-1 split returns the single empty token, and the parser returns
the empty node id with an empty mapping and no error. -/
theorem parse_whitespace_only_degenerates (s : String)
    (h : ∀ c ∈ s.toList, c.isWhitespace = true) :
    parse_node_invocation s = Except.ok ("", []) := by
  have hstrip : pyStrip s.toList = [] := pyStrip_nil s.toList h
  unfold parse_node_invocation
  rw [hstrip]
  decide

/-- C10, witness at the empty string and a space-only string. -/
theorem parse_whitespace_only_degenerates_witness :
    parse_node_invocation "" = Except.ok ("", []) ∧
    parse_node_invocation "  " = Except.ok ("", []) :=
  ⟨parse_whitespace_only_degenerates "" (by decide),
   parse_whitespace_only_degenerates "  " (by decide)⟩
